import Mathlib

/-!
Shallow embedding of the `graph-algorithms` Rust library
(src/lib/lib.rs - graph data model, src/lib/alg.rs - Dijkstra-style
shortest path and path cost).

Modelling conventions:

* The library documents that node values are unique within a graph and
  `NodeRcWrapper` equality, hashing and all lookups compare node values
  only.  Shared `Rc<RefCell<Node<T>>>` references are therefore modelled
  by the node's value; the graph state (list of nodes in insertion
  order) is threaded explicitly where the Rust code mutates through the
  shared cells.
* `u32` arithmetic is modelled as `Nat` reduced mod `2 ^ 32` at each
  addition (release-mode wrapping semantics; a debug build would panic
  on the same overflow).  `u32::MAX` is `4294967295`.
* The `priority_queue` crate's `PriorityQueue` always holds priorities
  equal to the current node distance (every `set_distance` is paired
  with a `change_priority`), so the frontier is modelled as the list of
  node values still unvisited and `popMin` reads the current distances;
  ties are broken towards the earlier-pushed element, one deterministic
  refinement of the crate's unspecified tie order.
* The `while !unvisited_nodes.is_empty()` loop removes exactly one
  element from the frontier per iteration, so it is embedded with a fuel
  parameter equal to the frontier length: fuel reaches zero exactly when
  the frontier is empty, and the zero case returns the same value as the
  empty-frontier case.
* `calculate_path_cost` runs `for i in 0..path.len() - 1`; on an empty
  vector `path.len() - 1` underflows `usize` and the Rust code panics,
  which is modelled by returning `none`.
-/

set_option linter.unusedSectionVars false

namespace GraphAlg

variable {T : Type} [DecidableEq T]

/-- u32::MAX, the initial `distance` of a fresh node. -/
def u32MAX : Nat := 4294967295

/-- 2 ^ 32, the modulus of wrapping `u32` addition. -/
def u32MOD : Nat := 4294967296

/-- Edge: weight plus target node reference (modelled by the target's
value). -/
structure Edge (T : Type) where
  weight : Nat
  target : T
  deriving DecidableEq, Repr

/-- Node: identifying value, outgoing edges, and the scratch fields
`distance` and `path` mutated by the path finder.  `path` holds node
references, modelled by values. -/
structure Node (T : Type) where
  value : T
  edges : List (Edge T)
  distance : Nat
  path : List T
  deriving DecidableEq, Repr

/-- Node::new - empty edges, distance u32::MAX, empty path. -/
def Node.new (value : T) : Node T :=
  { value := value, edges := [], distance := u32MAX, path := [] }

/-- Node::set_distance. -/
def Node.set_distance (n : Node T) (distance : Nat) : Node T :=
  { n with distance := distance }

/-- Node::set_path. -/
def Node.set_path (n : Node T) (path : List T) : Node T :=
  { n with path := path }

/-- Node::add_edge - scans existing edges and returns unchanged if an
edge to the same target value already exists, otherwise pushes the new
edge. -/
def Node.add_edge (n : Node T) (weight : Nat) (target : T) : Node T :=
  if n.edges.any (fun e => decide (e.target = target)) then n
  else { n with edges := n.edges ++ [{ weight := weight, target := target }] }

/-- Graph: directedness flag and nodes in insertion order. -/
structure Graph (T : Type) where
  directed : Bool
  nodes : List (Node T)
  deriving DecidableEq, Repr

/-- Graph::new. -/
def Graph.new (directed : Bool) : Graph T :=
  { directed := directed, nodes := [] }

/-- Graph::add_node - returns None (and leaves the graph unchanged) if a
node with an equal value already exists, otherwise pushes the node and
returns a reference to it (modelled by its value). -/
def Graph.add_node (g : Graph T) (node : Node T) : Option T × Graph T :=
  if g.nodes.any (fun n => decide (n.value = node.value)) then (none, g)
  else (some node.value, { g with nodes := g.nodes ++ [node] })

/-- Replace the first node whose value is `v` by `f` of it; the
counterpart of `position` followed by an indexed in-place update in the
Rust code. -/
def modifyValue (l : List (Node T)) (v : T) (f : Node T → Node T) : List (Node T) :=
  match l with
  | [] => []
  | n :: rest => if n.value = v then f n :: rest else n :: modifyValue rest v f

/-- Graph::add_edge - returns false if either endpoint value is absent;
otherwise adds `from -> to` on the from node (dedup by target value) and,
if the graph is undirected, `to -> from` on the to node.  NOTE: the Rust
function's final expression is `false`, so it returns `false` on success
as well (lib.rs line 98). -/
def Graph.add_edge (g : Graph T) (fromv tov : T) (weight : Nat) : Bool × Graph T :=
  if (g.nodes.find? (fun n => decide (n.value = fromv))).isNone
      || (g.nodes.find? (fun n => decide (n.value = tov))).isNone then
    (false, g)
  else
    let nodes1 := modifyValue g.nodes fromv (fun n => n.add_edge weight tov)
    let nodes2 :=
      if !g.directed then modifyValue nodes1 tov (fun n => n.add_edge weight fromv)
      else nodes1
    (false, { g with nodes := nodes2 })

/-- Graph::exists - linear value-equality scan, `find(..).is_some()`. -/
def Graph.exists_node (g : Graph T) (v : T) : Bool :=
  (g.nodes.find? (fun n => decide (n.value = v))).isSome

/-- Graph::get_node - linear value-equality scan returning the stored
node. -/
def Graph.get_node (g : Graph T) (v : T) : Option (Node T) :=
  g.nodes.find? (fun n => decide (n.value = v))

/-- AlgorithmError from alg.rs. -/
inductive AlgorithmError where
  | cannotFindClosestNode
  | cannotFindPath (msg : String)
  deriving DecidableEq, Repr

/-- Current distance of the node with value `v` (the priority-queue key
kept in sync with it).  The `none` branch is unreachable in the
algorithm: frontier values are graph node values. -/
def distOf (nodes : List (Node T)) (v : T) : Nat :=
  match nodes.find? (fun n => decide (n.value = v)) with
  | some n => n.distance
  | none => u32MAX

/-- Current path of the node with value `v`. -/
def pathOf (nodes : List (Node T)) (v : T) : List T :=
  match nodes.find? (fun n => decide (n.value = v)) with
  | some n => n.path
  | none => []

/-- Current edges of the node with value `v`. -/
def edgesOf (nodes : List (Node T)) (v : T) : List (Edge T) :=
  match nodes.find? (fun n => decide (n.value = v)) with
  | some n => n.edges
  | none => []

/-- PriorityQueue::pop on the frontier: removes an element with the
smallest current distance, keeping the earlier-pushed element on ties. -/
def popMin (nodes : List (Node T)) : List T → Option (T × List T)
  | [] => none
  | v :: rest =>
    match popMin nodes rest with
    | none => some (v, [])
    | some (w, rest1) =>
      if distOf nodes w < distOf nodes v then some (w, v :: rest1)
      else some (v, rest)

/-- Outcome of processing the edge list of the popped closest node:
either an early return from `find_path` or the updated state for the
next loop iteration. -/
inductive StepResult (T : Type) where
  | done (r : Except AlgorithmError (List T)) (st : List (Node T))
  | next (st : List (Node T))

/-- The relaxation step of alg.rs lines 105-128: set the target node's
distance to the candidate (the matching `change_priority` is implicit,
since frontier keys are read from the node states) and set its path to
the closest node's current path extended with the target. -/
def relaxTarget (cval : T) (candidate : Nat) (tval : T) (st : List (Node T)) :
    List (Node T) :=
  let st1 := modifyValue st tval (fun n => n.set_distance candidate)
  modifyValue st1 tval (fun n => n.set_path (pathOf st1 cval ++ [tval]))

/-- The `for e in closest_node...get_edges()` body of alg.rs lines
74-131: on an edge whose target value equals the end value, assemble
`[start] ++ closest.path ++ [target]` and return (or error if the start
node lookup fails); otherwise relax the target if it is still in the
frontier and the candidate distance `closest.distance + e.weight`
(written out at both of its two use sites) improves on it. -/
def processEdges (startv endv cval : T) (pq : List T) :
    List (Node T) → List (Edge T) → StepResult T
  | st, [] => .next st
  | st, e :: rest =>
    if e.target = endv then
      match st.find? (fun n => decide (n.value = startv)) with
      | none => .done (.error (.cannotFindPath "Start node does not exist in graph")) st
      | some sn => .done (.ok (sn.value :: (pathOf st cval ++ [e.target]))) st
    else if e.target ∈ pq then
      if (distOf st cval + e.weight) % u32MOD < distOf st e.target then
        processEdges startv endv cval pq
          (relaxTarget cval ((distOf st cval + e.weight) % u32MOD) e.target st) rest
      else processEdges startv endv cval pq st rest
    else processEdges startv endv cval pq st rest

/-- The main `while !unvisited_nodes.is_empty()` loop of find_path.
`fuel` is the frontier length: each iteration removes exactly one
element, so fuel zero coincides with the empty frontier and both return
the no-path error. -/
def findLoop (startv endv : T) :
    Nat → List (Node T) → List T → Except AlgorithmError (List T) × List (Node T)
  | 0, st, _ => (.error (.cannotFindPath "No path found"), st)
  | fuel + 1, st, pq =>
    if pq.isEmpty then (.error (.cannotFindPath "No path found"), st)
    else
      match popMin st pq with
      | none => (.error .cannotFindClosestNode, st)
      | some (cval, pq1) =>
        match processEdges startv endv cval pq1 st (edgesOf st cval) with
        | .done r st1 => (r, st1)
        | .next st1 => findLoop startv endv fuel st1 pq1

/-- find_path from alg.rs: the four precondition checks in order, then
set the start node's distance to 0, build the frontier from all nodes,
and run the loop.  The result carries the final graph state (the Rust
code mutates the shared nodes in place). -/
def find_path (g : Graph T) (startv endv : T) :
    Except AlgorithmError (List T) × Graph T :=
  if g.nodes.length = 0 then
    (.error (.cannotFindPath "No nodes exist in graph"), g)
  else if startv = endv then
    (.error (.cannotFindPath "Start and end nodes are the same"), g)
  else if !g.exists_node endv then
    (.error (.cannotFindPath "End node does not exist in graph"), g)
  else if !g.exists_node startv then
    (.error (.cannotFindPath "Start node does not exist in graph"), g)
  else
    let st0 := modifyValue g.nodes startv (fun n => n.set_distance 0)
    let pq := st0.map (fun n => n.value)
    let res := findLoop startv endv pq.length st0 pq
    (res.1, { g with nodes := res.2 })

/-- The inner edge scan of calculate_path_cost: add the weight of every
edge of `node` whose target value equals the next node's value (u32
wrapping add). -/
def addMatching (cost : Nat) (node next_node : Node T) : Nat :=
  node.edges.foldl
    (fun c e => if e.target = next_node.value then (c + e.weight) % u32MOD else c) cost

/-- The `for i in 0..path.len() - 1` loop of calculate_path_cost over
consecutive pairs. -/
def costLoop : Nat → List (Node T) → Nat
  | cost, node :: next_node :: rest => costLoop (addMatching cost node next_node) (next_node :: rest)
  | cost, _ => cost

/-- calculate_path_cost from alg.rs: sums matching edge weights over
consecutive pairs of the given node sequence.  On the empty sequence the
Rust code panics (`path.len() - 1` underflows usize), modelled as
`none`. -/
def calculate_path_cost (path : List (Node T)) : Option Nat :=
  match path with
  | [] => none
  | _ => some (costLoop 0 path)

/-- Resolve returned node references (values) against the final graph
state, recovering the node records the returned `Rc` handles point to. -/
def resolvePath (g : Graph T) (vs : List T) : List (Node T) :=
  vs.filterMap g.get_node

/-- Claim-side notion (stated from the specification's words, for
comparison with `calculate_path_cost`): the weight of the edge of `node`
whose target value equals the next node's value, zero when no such edge
exists. -/
def claimPairCost (node next_node : Node T) : Nat :=
  match node.edges.find? (fun e => decide (e.target = next_node.value)) with
  | some e => e.weight
  | none => 0

/-- Claim-side total cost: the sum of `claimPairCost` over consecutive
pairs; zero for sequences of length at most one. -/
def claimPathCost : List (Node T) → Nat
  | node :: next_node :: rest => claimPairCost node next_node + claimPathCost (next_node :: rest)
  | _ => 0

/-- Claim-side notion (stated from the claim's words): a directed path
of at most `fuel` edges leads from `u` to `v`.  Fuel equal to the node
count covers every directed path, since reachability needs at most
`n - 1` edges in an `n`-node graph. -/
def reachableWithin (g : Graph T) : Nat → T → T → Bool
  | 0, u, v => decide (u = v)
  | fuel + 1, u, v =>
    decide (u = v) || (edgesOf g.nodes u).any (fun e => reachableWithin g fuel e.target v)

/-- No node of the node list has an edge whose target value is `v`. -/
def NoEdgeInto (l : List (Node T)) (v : T) : Prop :=
  ∀ n ∈ l, ∀ e ∈ n.edges, e.target ≠ v

instance (l : List (Node T)) (v : T) : Decidable (NoEdgeInto l v) :=
  inferInstanceAs (Decidable (∀ n ∈ l, ∀ e ∈ n.edges, e.target ≠ v))

/-- The graph of the simple_directed test: directed, nodes 1..6, edges
(1,2,1) (1,3,3) (2,5,2) (3,4,3) (5,4,1) (4,6,2). -/
def testGraph : Graph Nat :=
  let g0 := Graph.new true
  let g1 := (g0.add_node (Node.new 1)).2
  let g2 := (g1.add_node (Node.new 2)).2
  let g3 := (g2.add_node (Node.new 3)).2
  let g4 := (g3.add_node (Node.new 4)).2
  let g5 := (g4.add_node (Node.new 5)).2
  let g6 := (g5.add_node (Node.new 6)).2
  let e1 := (g6.add_edge 1 2 1).2
  let e2 := (e1.add_edge 1 3 3).2
  let e3 := (e2.add_edge 2 5 2).2
  let e4 := (e3.add_edge 3 4 3).2
  let e5 := (e4.add_edge 5 4 1).2
  (e5.add_edge 4 6 2).2

/-- A disconnected directed graph: components {1, 2} (edge 1 -> 2) and
{3, 4} (edge 3 -> 4); no directed path leads from 1 to 4. -/
def cexGraph : Graph Nat :=
  let g0 := Graph.new true
  let g1 := (g0.add_node (Node.new 1)).2
  let g2 := (g1.add_node (Node.new 2)).2
  let g3 := (g2.add_node (Node.new 3)).2
  let g4 := (g3.add_node (Node.new 4)).2
  let e1 := (g4.add_edge 1 2 1).2
  (e1.add_edge 3 4 1).2

/-- A directed graph with nodes 1 and 2 and no edges. -/
def c2Graph : Graph Nat :=
  let g0 := Graph.new true
  let g1 := (g0.add_node (Node.new 1)).2
  (g1.add_node (Node.new 2)).2

/-- An undirected graph with nodes 1 and 2 and no edges. -/
def c8Graph : Graph Nat :=
  let g0 := Graph.new false
  let g1 := (g0.add_node (Node.new 1)).2
  (g1.add_node (Node.new 2)).2

/-- A directed graph with nodes 1, 2, 3 and the single edge 1 -> 2: node
3 has no incoming edge. -/
def c1WitnessGraph : Graph Nat :=
  let g0 := Graph.new true
  let g1 := (g0.add_node (Node.new 1)).2
  let g2 := (g1.add_node (Node.new 2)).2
  let g3 := (g2.add_node (Node.new 3)).2
  (g3.add_edge 1 2 1).2

/-- C3: on the freshly built directed graph with nodes 1..6 and edges
(1,2,1) (1,3,3) (2,5,2) (3,4,3) (5,4,1) (4,6,2), find_path from 1 to 6
returns Ok with the node sequence [1, 2, 5, 4, 6], and
calculate_path_cost on that returned sequence equals 6. -/
theorem find_path_simple_directed_scenario :
    (find_path testGraph 1 6).1 = Except.ok [1, 2, 5, 4, 6] ∧
    calculate_path_cost (resolvePath (find_path testGraph 1 6).2 [1, 2, 5, 4, 6]) = some 6 :=
  ⟨rfl, rfl⟩

/-- C10: for every graph and node value, `exists` returns true exactly
when `get_node` returns Some; both are the same value-equality scan over
the stored nodes. -/
theorem exists_node_iff_get_node_isSome (g : Graph T) (v : T) :
    g.exists_node v = (g.get_node v).isSome :=
  rfl

/-- C1 counterexample: in the disconnected graph `cexGraph` no directed
path of edges leads from node 1 to node 4 (bounded search with fuel
equal to the node count), yet find_path returns Ok with [1, 4] instead
of the CannotFindPath error the claim requires. -/
theorem find_path_disconnected_returns_ok :
    reachableWithin cexGraph 4 1 4 = false ∧
    (find_path cexGraph 1 4).1 = Except.ok [1, 4] :=
  ⟨rfl, rfl⟩

/-- C2 (code bug): add_edge on a graph containing both endpoints
appends the edge from -> to, yet still returns false (the function's
final expression is the literal `false`), so the boolean result cannot
distinguish success from failure. -/
theorem add_edge_returns_false_despite_success :
    (c2Graph.add_edge 1 2 1).1 = false ∧
    ((c2Graph.add_edge 1 2 1).2.get_node 1).map Node.edges =
      some [{ weight := 1, target := 2 }] :=
  ⟨rfl, rfl⟩

/-- C4 (code bug): on the empty sequence the Rust code panics (usize
underflow in the loop bound), modelled as `none`, instead of returning
0 as the claim requires; on a length-one sequence it does return 0. -/
theorem calculate_path_cost_empty_and_singleton :
    calculate_path_cost ([] : List (Node Nat)) = none ∧
    calculate_path_cost [Node.new 1] = some 0 :=
  ⟨rfl, rfl⟩

theorem set_distance_value (n : Node T) (d : Nat) : (n.set_distance d).value = n.value := rfl

theorem set_distance_edges (n : Node T) (d : Nat) : (n.set_distance d).edges = n.edges := rfl

theorem set_path_value (n : Node T) (p : List T) : (n.set_path p).value = n.value := rfl

theorem set_path_edges (n : Node T) (p : List T) : (n.set_path p).edges = n.edges := rfl

theorem add_edge_value (n : Node T) (w : Nat) (t : T) : (n.add_edge w t).value = n.value := by
  unfold Node.add_edge; split <;> rfl

theorem add_edge_hasTarget (n : Node T) (w : Nat) (t : T) :
    (n.add_edge w t).edges.any (fun e => decide (e.target = t)) = true := by
  unfold Node.add_edge
  by_cases h : n.edges.any (fun e => decide (e.target = t)) = true
  · rw [if_pos h]; exact h
  · rw [if_neg h]; simp [List.any_append]

theorem add_edge_of_hasTarget (n : Node T) (w : Nat) (t : T)
    (h : n.edges.any (fun e => decide (e.target = t)) = true) :
    n.add_edge w t = n := by
  unfold Node.add_edge; rw [if_pos h]

theorem add_edge_of_no_target (n : Node T) (w : Nat) (t : T)
    (h : ∀ e ∈ n.edges, e.target ≠ t) :
    n.add_edge w t = { n with edges := n.edges ++ [{ weight := w, target := t }] } := by
  have hf : n.edges.any (fun e => decide (e.target = t)) = false :=
    List.any_eq_false.mpr (fun e he => by simp [h e he])
  unfold Node.add_edge
  rw [hf]
  simp

theorem find?_modifyValue_self (l : List (Node T)) (v : T)
    (f : Node T → Node T) (hf : ∀ n, (f n).value = n.value) :
    (modifyValue l v f).find? (fun n => decide (n.value = v)) =
      ((l.find? (fun n => decide (n.value = v))).map f) := by
  induction l with
  | nil => rfl
  | cons n rest ih =>
    by_cases hv : n.value = v
    · rw [modifyValue, if_pos hv, List.find?_cons_of_pos _ (by simp [hf, hv]),
        List.find?_cons_of_pos _ (by simp [hv])]
      rfl
    · rw [modifyValue, if_neg hv, List.find?_cons_of_neg _ (by simp [hv]),
        List.find?_cons_of_neg _ (by simp [hv]), ih]

theorem find?_modifyValue_other (l : List (Node T)) (v u : T) (hne : u ≠ v)
    (f : Node T → Node T) (hf : ∀ n, (f n).value = n.value) :
    (modifyValue l v f).find? (fun n => decide (n.value = u)) =
      l.find? (fun n => decide (n.value = u)) := by
  induction l with
  | nil => rfl
  | cons n rest ih =>
    by_cases hv : n.value = v
    · have hnu : ¬ n.value = u := fun h => hne ((h ▸ hv : u = v))
      rw [modifyValue, if_pos hv, List.find?_cons_of_neg _ (by simp [hf, hnu]),
        List.find?_cons_of_neg _ (by simp [hnu])]
    · by_cases hu : n.value = u
      · rw [modifyValue, if_neg hv, List.find?_cons_of_pos _ (by simp [hu]),
          List.find?_cons_of_pos _ (by simp [hu])]
      · rw [modifyValue, if_neg hv, List.find?_cons_of_neg _ (by simp [hu]),
          List.find?_cons_of_neg _ (by simp [hu]), ih]

theorem find?_modifyValue_isSome (l : List (Node T)) (v u : T)
    (f : Node T → Node T) (hf : ∀ n, (f n).value = n.value) :
    ((modifyValue l v f).find? (fun n => decide (n.value = u))).isSome =
      (l.find? (fun n => decide (n.value = u))).isSome := by
  by_cases h : u = v
  · subst h; rw [find?_modifyValue_self l u f hf]
    cases l.find? (fun n => decide (n.value = u)) <;> rfl
  · rw [find?_modifyValue_other l v u h f hf]

theorem mem_modifyValue (l : List (Node T)) (v : T) (f : Node T → Node T) :
    ∀ m ∈ modifyValue l v f, ∃ n ∈ l, m = n ∨ m = f n := by
  induction l with
  | nil => intro m hm; simp [modifyValue] at hm
  | cons n rest ih =>
    intro m hm
    by_cases hv : n.value = v
    · rw [modifyValue, if_pos hv] at hm
      rcases List.mem_cons.mp hm with h | h
      · exact ⟨n, List.mem_cons_self n rest, Or.inr h⟩
      · exact ⟨m, List.mem_cons_of_mem n h, Or.inl rfl⟩
    · rw [modifyValue, if_neg hv] at hm
      rcases List.mem_cons.mp hm with h | h
      · exact ⟨n, List.mem_cons_self n rest, Or.inl h⟩
      · obtain ⟨n1, hn1, ho⟩ := ih m h
        exact ⟨n1, List.mem_cons_of_mem n hn1, ho⟩

theorem modifyValue_noop (l : List (Node T)) (v : T) (f : Node T → Node T)
    (h : ∀ n, l.find? (fun n => decide (n.value = v)) = some n → f n = n) :
    modifyValue l v f = l := by
  induction l with
  | nil => rfl
  | cons n rest ih =>
    by_cases hv : n.value = v
    · rw [modifyValue, if_pos hv,
        h n (List.find?_cons_of_pos _ (by simp [hv]))]
    · rw [modifyValue, if_neg hv, ih]
      intro m hm
      apply h
      rw [List.find?_cons_of_neg _ (by simp [hv])]
      exact hm

theorem popMin_isSome (nodes : List (Node T)) :
    ∀ l : List T, l ≠ [] → (popMin nodes l).isSome = true
  | [], h => absurd rfl h
  | v :: rest, _ => by
    rw [popMin]
    cases popMin nodes rest with
    | none => rfl
    | some p =>
      obtain ⟨c, r⟩ := p
      dsimp only
      split <;> rfl

theorem popMin_none (nodes : List (Node T)) (l : List T)
    (h : popMin nodes l = none) : l = [] := by
  by_contra hne
  have := popMin_isSome nodes l hne
  rw [h] at this
  exact Bool.false_ne_true this

theorem popMin_length (nodes : List (Node T)) :
    ∀ l c rest, popMin nodes l = some (c, rest) → rest.length + 1 = l.length
  | [], _, _, h => by simp [popMin] at h
  | v :: tl, c, rest, h => by
    rw [popMin] at h
    cases hm : popMin nodes tl with
    | none =>
      rw [hm] at h
      have htl : tl = [] := popMin_none nodes tl hm
      simp only [Option.some.injEq, Prod.mk.injEq] at h
      obtain ⟨rfl, hr⟩ := h
      subst htl
      rw [← hr]
      rfl
    | some p =>
      obtain ⟨c1, rest1⟩ := p
      rw [hm] at h
      dsimp only at h
      have hlen := popMin_length nodes tl c1 rest1 hm
      split at h <;>
        (simp only [Option.some.injEq, Prod.mk.injEq] at h
         obtain ⟨rfl, hr⟩ := h
         rw [← hr]
         simp only [List.length_cons] at hlen ⊢
         try omega)
theorem noEdgeInto_modifyValue (l : List (Node T)) (v w : T) (f : Node T → Node T)
    (hf : ∀ n, (f n).edges = n.edges) (h : NoEdgeInto l w) :
    NoEdgeInto (modifyValue l v f) w := by
  intro m hm e he
  obtain ⟨n, hn, hmn | hmn⟩ := mem_modifyValue l v f m hm
  · exact h n hn e (hmn ▸ he)
  · refine h n hn e ?_
    rw [hmn, hf] at he
    exact he

theorem find?_relaxTarget_isSome (cval : T) (cand : Nat) (tval u : T) (st : List (Node T)) :
    ((relaxTarget cval cand tval st).find? (fun n => decide (n.value = u))).isSome =
      (st.find? (fun n => decide (n.value = u))).isSome := by
  simp only [relaxTarget]
  rw [find?_modifyValue_isSome _ _ _ _ (fun n => set_path_value n _),
    find?_modifyValue_isSome _ _ _ _ (fun n => set_distance_value n _)]

theorem noEdgeInto_relaxTarget (cval : T) (cand : Nat) (tval w : T) (st : List (Node T))
    (h : NoEdgeInto st w) : NoEdgeInto (relaxTarget cval cand tval st) w := by
  simp only [relaxTarget]
  exact noEdgeInto_modifyValue _ _ _ _ (fun n => set_path_edges n _)
    (noEdgeInto_modifyValue _ _ _ _ (fun n => set_distance_edges n _) h)

theorem processEdges_ok_shape (startv endv cval : T) (pq : List T) (eds : List (Edge T)) :
    ∀ st p st1, processEdges startv endv cval pq st eds = .done (.ok p) st1 →
      ∃ mid, p = startv :: (mid ++ [endv]) := by
  induction eds with
  | nil =>
    intro st p st1 h
    simp [processEdges] at h
  | cons e rest ih =>
    intro st p st1 h
    by_cases ht : e.target = endv
    · cases hf : st.find? (fun n => decide (n.value = startv)) with
      | none => simp [processEdges, if_pos ht, hf] at h
      | some sn =>
        simp only [processEdges, if_pos ht, hf] at h
        have hsv : sn.value = startv := by
          have := List.find?_some hf
          simpa using this
        refine ⟨pathOf st cval, ?_⟩
        injection h with h1 h2
        have := Except.ok.inj h1
        rw [← this, hsv, ht]
    · by_cases hm : e.target ∈ pq
      · by_cases hc : (distOf st cval + e.weight) % u32MOD < distOf st e.target
        · simp only [processEdges, if_neg ht, if_pos hm, if_pos hc] at h
          exact ih _ p st1 h
        · simp only [processEdges, if_neg ht, if_pos hm, if_neg hc] at h
          exact ih _ p st1 h
      · simp only [processEdges, if_neg ht, if_neg hm] at h
        exact ih _ p st1 h

theorem processEdges_exists_start (startv endv cval : T) (pq : List T) (eds : List (Edge T)) :
    ∀ st, (st.find? (fun n => decide (n.value = startv))).isSome = true →
      (∀ err st1, processEdges startv endv cval pq st eds ≠ .done (.error err) st1) ∧
      (∀ st1, processEdges startv endv cval pq st eds = .next st1 →
        (st1.find? (fun n => decide (n.value = startv))).isSome = true) := by
  induction eds with
  | nil =>
    intro st hs
    constructor
    · intro err st1 h
      simp [processEdges] at h
    · intro st1 h
      simp only [processEdges] at h
      injection h with h1
      rw [← h1]
      exact hs
  | cons e rest ih =>
    intro st hs
    by_cases ht : e.target = endv
    · cases hf : st.find? (fun n => decide (n.value = startv)) with
      | none =>
        rw [hf] at hs
        exact absurd hs (by simp)
      | some sn =>
        constructor
        · intro err st1 h
          simp [processEdges, if_pos ht, hf] at h
        · intro st1 h
          simp [processEdges, if_pos ht, hf] at h
    · by_cases hm : e.target ∈ pq
      · by_cases hc : (distOf st cval + e.weight) % u32MOD < distOf st e.target
        · have hs2 : (((relaxTarget cval ((distOf st cval + e.weight) % u32MOD) e.target
              st).find? (fun n => decide (n.value = startv))).isSome) = true := by
            rw [find?_relaxTarget_isSome]
            exact hs
          constructor
          · intro err st1 h
            simp only [processEdges, if_neg ht, if_pos hm, if_pos hc] at h
            exact (ih _ hs2).1 err st1 h
          · intro st1 h
            simp only [processEdges, if_neg ht, if_pos hm, if_pos hc] at h
            exact (ih _ hs2).2 st1 h
        · constructor
          · intro err st1 h
            simp only [processEdges, if_neg ht, if_pos hm, if_neg hc] at h
            exact (ih _ hs).1 err st1 h
          · intro st1 h
            simp only [processEdges, if_neg ht, if_pos hm, if_neg hc] at h
            exact (ih _ hs).2 st1 h
      · constructor
        · intro err st1 h
          simp only [processEdges, if_neg ht, if_neg hm] at h
          exact (ih _ hs).1 err st1 h
        · intro st1 h
          simp only [processEdges, if_neg ht, if_neg hm] at h
          exact (ih _ hs).2 st1 h

theorem processEdges_no_end (startv endv cval : T) (pq : List T) (eds : List (Edge T)) :
    ∀ st, NoEdgeInto st endv → (∀ e ∈ eds, e.target ≠ endv) →
      ∃ st1, processEdges startv endv cval pq st eds = .next st1 ∧ NoEdgeInto st1 endv := by
  induction eds with
  | nil =>
    intro st hst _
    exact ⟨st, rfl, hst⟩
  | cons e rest ih =>
    intro st hst heds
    have ht : ¬ e.target = endv := heds e (List.mem_cons_self e rest)
    have hrest : ∀ e1 ∈ rest, e1.target ≠ endv := fun e1 h1 => heds e1 (List.mem_cons_of_mem e h1)
    by_cases hm : e.target ∈ pq
    · by_cases hc : (distOf st cval + e.weight) % u32MOD < distOf st e.target
      · obtain ⟨st1, h1, h2⟩ :=
          ih _ (noEdgeInto_relaxTarget cval _ e.target endv st hst) hrest
        refine ⟨st1, ?_, h2⟩
        simp only [processEdges, if_neg ht, if_pos hm, if_pos hc]
        exact h1
      · obtain ⟨st1, h1, h2⟩ := ih _ hst hrest
        refine ⟨st1, ?_, h2⟩
        simp only [processEdges, if_neg ht, if_pos hm, if_neg hc]
        exact h1
    · obtain ⟨st1, h1, h2⟩ := ih _ hst hrest
      refine ⟨st1, ?_, h2⟩
      simp only [processEdges, if_neg ht, if_neg hm]
      exact h1
theorem findLoop_ok_shape (startv endv : T) :
    ∀ fuel st pq p, (findLoop startv endv fuel st pq).1 = .ok p →
      ∃ mid, p = startv :: (mid ++ [endv]) := by
  intro fuel
  induction fuel with
  | zero =>
    intro st pq p h
    simp [findLoop] at h
  | succ fuel ih =>
    intro st pq p h
    rw [findLoop] at h
    by_cases he : pq.isEmpty
    · rw [if_pos he] at h
      simp at h
    · rw [if_neg he] at h
      cases hp : popMin st pq with
      | none =>
        rw [hp] at h
        simp at h
      | some pr =>
        obtain ⟨cval, pq1⟩ := pr
        rw [hp] at h
        dsimp only at h
        cases hq : processEdges startv endv cval pq1 st (edgesOf st cval) with
        | done r st1 =>
          rw [hq] at h
          dsimp only at h
          rw [h] at hq
          exact processEdges_ok_shape startv endv cval pq1 (edgesOf st cval) st p st1 hq
        | next st1 =>
          rw [hq] at h
          exact ih st1 pq1 p h

theorem findLoop_error_msg (startv endv : T) :
    ∀ fuel st pq m, (st.find? (fun n => decide (n.value = startv))).isSome = true →
      (findLoop startv endv fuel st pq).1 = .error (.cannotFindPath m) →
      m = "No path found" := by
  intro fuel
  induction fuel with
  | zero =>
    intro st pq m _ h
    rw [findLoop] at h
    dsimp only at h
    exact (AlgorithmError.cannotFindPath.inj (Except.error.inj h)).symm
  | succ fuel ih =>
    intro st pq m hs h
    rw [findLoop] at h
    by_cases he : pq.isEmpty
    · rw [if_pos he] at h
      dsimp only at h
      exact (AlgorithmError.cannotFindPath.inj (Except.error.inj h)).symm
    · rw [if_neg he] at h
      cases hp : popMin st pq with
      | none =>
        rw [hp] at h
        simp at h
      | some pr =>
        obtain ⟨cval, pq1⟩ := pr
        rw [hp] at h
        dsimp only at h
        cases hq : processEdges startv endv cval pq1 st (edgesOf st cval) with
        | done r st1 =>
          rw [hq] at h
          dsimp only at h
          rw [h] at hq
          exact absurd hq ((processEdges_exists_start startv endv cval pq1 (edgesOf st cval) st hs).1 _ _)
        | next st1 =>
          rw [hq] at h
          exact ih st1 pq1 m
            ((processEdges_exists_start startv endv cval pq1 (edgesOf st cval) st hs).2 st1 hq) h

theorem findLoop_no_edge_into_end (startv endv : T) :
    ∀ fuel st pq, NoEdgeInto st endv →
      (findLoop startv endv fuel st pq).1 = .error (.cannotFindPath "No path found") := by
  intro fuel
  induction fuel with
  | zero =>
    intro st pq _
    rw [findLoop]
  | succ fuel ih =>
    intro st pq hst
    rw [findLoop]
    by_cases he : pq.isEmpty
    · rw [if_pos he]
    · rw [if_neg he]
      cases hp : popMin st pq with
      | none =>
        exact absurd (popMin_none st pq hp) (by simpa [List.isEmpty_iff] using he)
      | some pr =>
        obtain ⟨cval, pq1⟩ := pr
        dsimp only
        have heds : ∀ e ∈ edgesOf st cval, e.target ≠ endv := by
          intro e he1
          cases hf : st.find? (fun n => decide (n.value = cval)) with
          | none =>
            simp only [edgesOf, hf] at he1
            simp at he1
          | some n =>
            simp only [edgesOf, hf] at he1
            exact hst n (List.mem_of_find?_eq_some hf) e he1
        obtain ⟨st1, h1, h2⟩ :=
          processEdges_no_end startv endv cval pq1 (edgesOf st cval) st hst heds
        rw [h1]
        exact ih st1 pq1 h2
/-- C6: find_path checks its four preconditions in this exact order -
empty graph, start equals end, end absent, start absent - the first
failing check determines the returned CannotFindPath error, and the four
reasons are pairwise distinct. -/
theorem find_path_precondition_order (g : Graph T) (s e : T) :
    (g.nodes.length = 0 →
      find_path g s e = (.error (.cannotFindPath "No nodes exist in graph"), g)) ∧
    (g.nodes.length ≠ 0 → s = e →
      find_path g s e = (.error (.cannotFindPath "Start and end nodes are the same"), g)) ∧
    (g.nodes.length ≠ 0 → s ≠ e → g.exists_node e = false →
      find_path g s e = (.error (.cannotFindPath "End node does not exist in graph"), g)) ∧
    (g.nodes.length ≠ 0 → s ≠ e → g.exists_node e = true → g.exists_node s = false →
      find_path g s e = (.error (.cannotFindPath "Start node does not exist in graph"), g)) ∧
    (("No nodes exist in graph" : String) ≠ "Start and end nodes are the same" ∧
      ("No nodes exist in graph" : String) ≠ "End node does not exist in graph" ∧
      ("No nodes exist in graph" : String) ≠ "Start node does not exist in graph" ∧
      ("Start and end nodes are the same" : String) ≠ "End node does not exist in graph" ∧
      ("Start and end nodes are the same" : String) ≠ "Start node does not exist in graph" ∧
      ("End node does not exist in graph" : String) ≠ "Start node does not exist in graph") := by
  refine ⟨?_, ?_, ?_, ?_, by decide, by decide, by decide, by decide, by decide, by decide⟩
  · intro h1
    simp [find_path, h1]
  · intro h1 h2
    simp [find_path, h1, h2]
  · intro h1 h2 h3
    simp [find_path, h1, h2, h3]
  · intro h1 h2 h3 h4
    simp [find_path, h1, h2, h3, h4]

/-- Witness for C6: on the empty graph the first precondition fires. -/
theorem find_path_precondition_order_witness :
    find_path (Graph.new true : Graph Nat) 1 2 =
      (.error (.cannotFindPath "No nodes exist in graph"), Graph.new true) :=
  (find_path_precondition_order (Graph.new true) 1 2).1 rfl

/-- C7: whenever find_path returns Ok with a node sequence, the sequence
is non-empty, its first element is the start node's value and its last
element is the end node's value. -/
theorem find_path_ok_endpoints (g : Graph T) (s e : T) (p : List T)
    (h : (find_path g s e).1 = Except.ok p) :
    p ≠ [] ∧ p.head? = some s ∧ p.getLast? = some e := by
  by_cases h1 : g.nodes.length = 0
  · simp [find_path, h1] at h
  · by_cases h2 : s = e
    · simp [find_path, h1, h2] at h
    · cases h3 : g.exists_node e with
      | false => simp [find_path, h1, h2, h3] at h
      | true =>
        cases h4 : g.exists_node s with
        | false => simp [find_path, h1, h2, h3, h4] at h
        | true =>
          simp only [find_path, h1, h2, h3, h4] at h
          simp at h
          obtain ⟨mid, rfl⟩ := findLoop_ok_shape s e _ _ _ p h
          refine ⟨by simp, rfl, ?_⟩
          rw [show s :: (mid ++ [e]) = (s :: mid) ++ [e] from rfl, List.getLast?_concat]

/-- Witness for C7: the successful run on the simple_directed graph. -/
theorem find_path_ok_endpoints_witness :
    ([1, 2, 5, 4, 6] : List Nat) ≠ [] ∧ ([1, 2, 5, 4, 6] : List Nat).head? = some 1 ∧
      ([1, 2, 5, 4, 6] : List Nat).getLast? = some 6 :=
  find_path_ok_endpoints testGraph 1 6 [1, 2, 5, 4, 6] rfl

/-- C9: when find_path returns one of the four precondition errors, the
returned graph state is exactly the input graph: every precondition
check happens before the start node's distance is set to 0, and the
start-missing message cannot be produced later because the loop never
removes nodes from the graph. -/
theorem find_path_precondition_error_preserves_graph (g : Graph T) (s e : T) (m : String)
    (h : (find_path g s e).1 = .error (.cannotFindPath m))
    (hm : m ∈ ["No nodes exist in graph", "Start and end nodes are the same",
      "End node does not exist in graph", "Start node does not exist in graph"]) :
    (find_path g s e).2 = g := by
  by_cases h1 : g.nodes.length = 0
  · simp [find_path, h1]
  · by_cases h2 : s = e
    · simp [find_path, h1, h2]
    · cases h3 : g.exists_node e with
      | false => simp [find_path, h1, h2, h3]
      | true =>
        cases h4 : g.exists_node s with
        | false => simp [find_path, h1, h2, h3, h4]
        | true =>
          exfalso
          simp only [find_path, h1, h2, h3, h4] at h
          simp at h
          have hs : ((modifyValue g.nodes s (fun n => n.set_distance 0)).find?
              (fun n => decide (n.value = s))).isSome = true := by
            rw [find?_modifyValue_isSome _ _ _ _ (fun n => set_distance_value n _)]
            exact h4
          have hnp := findLoop_error_msg s e _ _ _ m hs h
          subst hnp
          have : ("No path found" : String) ∉
              ["No nodes exist in graph", "Start and end nodes are the same",
                "End node does not exist in graph", "Start node does not exist in graph"] := by
            decide
          exact this hm

/-- Witness for C9: the empty-graph precondition error leaves the graph
untouched. -/
theorem find_path_precondition_error_preserves_graph_witness :
    (find_path (Graph.new true : Graph Nat) 1 2).2 = Graph.new true :=
  find_path_precondition_error_preserves_graph (Graph.new true) 1 2
    "No nodes exist in graph" rfl (by decide)

/-- C1 amended: when the preconditions pass and no node of the graph has
an edge whose target value equals the end value, the loop can never take
the early-return branch, the frontier empties, and find_path returns
CannotFindPath with reason No path found - in particular it never
returns Ok for such a graph. -/
theorem find_path_no_edge_into_end_fails (g : Graph T) (s e : T)
    (h1 : g.nodes.length ≠ 0) (h2 : s ≠ e)
    (h3 : g.exists_node e = true) (h4 : g.exists_node s = true)
    (h5 : NoEdgeInto g.nodes e) :
    (find_path g s e).1 = Except.error (.cannotFindPath "No path found") := by
  simp only [find_path, h1, h2, h3, h4]
  simp
  apply findLoop_no_edge_into_end
  exact noEdgeInto_modifyValue _ _ _ _ (fun n => set_distance_edges n _) h5

/-- Witness for C1 amended: nodes 1, 2, 3 with single edge 1 -> 2; node
3 has no incoming edge, so find_path 1 3 exhausts the frontier. -/
theorem find_path_no_edge_into_end_fails_witness :
    (find_path c1WitnessGraph 1 3).1 = Except.error (.cannotFindPath "No path found") :=
  find_path_no_edge_into_end_fails c1WitnessGraph 1 3 (by decide) (by decide) (by decide)
    (by decide) (by decide)
theorem foldMatching_no_match (bval : T) (es : List (Edge T))
    (h : ∀ e ∈ es, e.target ≠ bval) : ∀ cost : Nat,
    es.foldl (fun c e => if e.target = bval then (c + e.weight) % u32MOD else c) cost = cost := by
  induction es with
  | nil => intro cost; rfl
  | cons e tl ih =>
    intro cost
    rw [List.foldl_cons, if_neg (h e (List.mem_cons_self e tl))]
    exact ih (fun e1 h1 => h e1 (List.mem_cons_of_mem e h1)) cost

theorem foldMatching_eq (bval : T) (es : List (Edge T)) :
    (es.map Edge.target).Nodup → ∀ cost : Nat,
    cost + ((es.find? (fun e => decide (e.target = bval))).map Edge.weight).getD 0 < u32MOD →
    es.foldl (fun c e => if e.target = bval then (c + e.weight) % u32MOD else c) cost =
      cost + ((es.find? (fun e => decide (e.target = bval))).map Edge.weight).getD 0 := by
  induction es with
  | nil => intro _ cost _; simp
  | cons e tl ih =>
    intro hnd cost hlt
    by_cases ht : e.target = bval
    · have hnotin : e.target ∉ tl.map Edge.target := by
        rw [List.map_cons, List.nodup_cons] at hnd
        exact hnd.1
      have hfind : List.find? (fun e => decide (e.target = bval)) (e :: tl) = some e :=
        List.find?_cons_of_pos _ (by simp [ht])
      rw [hfind] at hlt ⊢
      simp only [Option.map_some', Option.getD_some] at hlt ⊢
      rw [List.foldl_cons, if_pos ht, Nat.mod_eq_of_lt hlt]
      apply foldMatching_no_match
      intro e1 h1 he1
      refine hnotin ?_
      rw [ht, ← he1]
      exact List.mem_map_of_mem Edge.target h1
    · have hfind : List.find? (fun e => decide (e.target = bval)) (e :: tl) =
          List.find? (fun e => decide (e.target = bval)) tl :=
        List.find?_cons_of_neg _ (by simp [ht])
      rw [hfind] at hlt ⊢
      rw [List.foldl_cons, if_neg ht]
      refine ih ?_ cost hlt
      rw [List.map_cons, List.nodup_cons] at hnd
      exact hnd.2

theorem claimPairCost_eq_getD (a b : Node T) :
    claimPairCost a b =
      ((a.edges.find? (fun e => decide (e.target = b.value))).map Edge.weight).getD 0 := by
  unfold claimPairCost
  cases a.edges.find? (fun e => decide (e.target = b.value)) <;> rfl

theorem addMatching_eq (a b : Node T) (cost : Nat)
    (hnd : (a.edges.map Edge.target).Nodup)
    (hlt : cost + claimPairCost a b < u32MOD) :
    addMatching cost a b = cost + claimPairCost a b := by
  rw [claimPairCost_eq_getD] at hlt
  rw [claimPairCost_eq_getD]
  exact foldMatching_eq b.value a.edges hnd cost hlt

theorem costLoop_eq : ∀ (l : List (Node T)) (cost : Nat),
    (∀ n ∈ l, (n.edges.map Edge.target).Nodup) →
    cost + claimPathCost l < u32MOD →
    costLoop cost l = cost + claimPathCost l
  | [], cost, _, _ => by simp [costLoop, claimPathCost]
  | [a], cost, _, _ => by simp [costLoop, claimPathCost]
  | a :: b :: rest, cost, hnd, hlt => by
    have hpc : claimPathCost (a :: b :: rest) = claimPairCost a b + claimPathCost (b :: rest) :=
      rfl
    rw [hpc] at hlt
    have hlt1 : cost + claimPairCost a b < u32MOD := by omega
    rw [costLoop, addMatching_eq a b cost (hnd a (List.mem_cons_self a _)) hlt1,
      costLoop_eq (b :: rest) (cost + claimPairCost a b)
        (fun n h => hnd n (List.mem_cons_of_mem a h)) (by omega),
      hpc]
    omega
/-- C5: for node sequences of length at least 2 whose nodes have
pairwise-distinct edge targets (the invariant Node::add_edge maintains)
and whose total cost fits in u32, calculate_path_cost returns the sum,
over consecutive pairs, of the weight of the edge of node[i] targeting
node[i+1]'s value, a pair with no such edge contributing zero; no
validation that the sequence is a real path is performed. -/
theorem calculate_path_cost_sums_matching_edges (path : List (Node T))
    (hlen : 2 ≤ path.length)
    (hnd : ∀ n ∈ path, (n.edges.map Edge.target).Nodup)
    (hb : claimPathCost path < u32MOD) :
    calculate_path_cost path = some (claimPathCost path) := by
  cases path with
  | nil => simp at hlen
  | cons a rest =>
    have h0 : (0 : Nat) + claimPathCost (a :: rest) < u32MOD := by omega
    rw [calculate_path_cost, costLoop_eq (a :: rest) 0 hnd h0]
    · simp
    · simp

/-- Witness for C5: a two-node sequence whose first node has a weight-4
edge to the second node's value. -/
theorem calculate_path_cost_sums_matching_edges_witness :
    calculate_path_cost
        [({ value := 1, edges := [{ weight := 4, target := 2 }], distance := u32MAX,
            path := [] } : Node Nat), Node.new 2] =
      some (claimPathCost
        [({ value := 1, edges := [{ weight := 4, target := 2 }], distance := u32MAX,
            path := [] } : Node Nat), Node.new 2]) :=
  calculate_path_cost_sums_matching_edges _ (by decide) (by decide) (by decide)
theorem add_edge_second_noop (gd : Bool) (gn : List (Node T)) (f t : T) (w1 : Nat)
    (n1 n2 : Node T)
    (hn1 : gn.find? (fun n => decide (n.value = f)) = some n1)
    (hn2 : gn.find? (fun n => decide (n.value = t)) = some n2)
    (he1 : n1.edges.any (fun e => decide (e.target = t)) = true)
    (he2 : gd = false → n2.edges.any (fun e => decide (e.target = f)) = true) :
    ((Graph.mk gd gn).add_edge f t w1).2 = Graph.mk gd gn := by
  have hN1 : modifyValue gn f (fun n => n.add_edge w1 t) = gn :=
    modifyValue_noop _ _ _ (fun n hn => by
      rw [hn1] at hn
      cases Option.some.inj hn
      exact add_edge_of_hasTarget _ _ _ he1)
  rw [Graph.add_edge, if_neg (by rw [hn1, hn2]; simp)]
  cases gd with
  | true => simp [hN1]
  | false =>
    have hN2 : modifyValue gn t (fun n => n.add_edge w1 f) = gn :=
      modifyValue_noop _ _ _ (fun n hn => by
        rw [hn2] at hn
        cases Option.some.inj hn
        exact add_edge_of_hasTarget _ _ _ (he2 rfl))
    simp [hN1, hN2]

/-- C8: on an undirected graph, a successful add_edge between distinct
nodes with no prior edge between them appends one edge on each endpoint
towards the other with the same weight; and on every graph, a repeated
add_edge call for the same from/to pair is a no-op on the graph even
with a different weight (dedup is by target value, so the first weight
wins). -/
theorem add_edge_undirected_mutual_and_dedup (g : Graph T) (f t : T) (w w1 : Nat)
    (nf nt : Node T) :
    (g.directed = false → f ≠ t → g.get_node f = some nf → g.get_node t = some nt →
      (∀ e ∈ nf.edges, e.target ≠ t) → (∀ e ∈ nt.edges, e.target ≠ f) →
      ((((g.add_edge f t w).2.get_node f).map Node.edges =
          some (nf.edges ++ [{ weight := w, target := t }])) ∧
        (((g.add_edge f t w).2.get_node t).map Node.edges =
          some (nt.edges ++ [{ weight := w, target := f }])))) ∧
    ((g.add_edge f t w).2.add_edge f t w1).2 = (g.add_edge f t w).2 := by
  constructor
  · intro hdir hft hnf hnt hnof hnot
    have hnf0 : g.nodes.find? (fun n => decide (n.value = f)) = some nf := hnf
    have hnt0 : g.nodes.find? (fun n => decide (n.value = t)) = some nt := hnt
    have hcond : ¬ (((g.nodes.find? (fun n => decide (n.value = f))).isNone
        || (g.nodes.find? (fun n => decide (n.value = t))).isNone) = true) := by
      rw [hnf0, hnt0]; simp
    have h2 : (g.add_edge f t w).2 = Graph.mk g.directed
        (modifyValue (modifyValue g.nodes f (fun n => n.add_edge w t)) t
          (fun n => n.add_edge w f)) := by
      rw [Graph.add_edge, if_neg hcond]
      simp [hdir]
    rw [h2]
    constructor
    · simp only [Graph.get_node]
      rw [find?_modifyValue_other _ t f hft _ (fun n => add_edge_value n w f),
        find?_modifyValue_self _ f _ (fun n => add_edge_value n w t), hnf0,
        Option.map_map]
      simp only [Option.map_some', Function.comp]
      rw [add_edge_of_no_target nf w t hnof]
    · simp only [Graph.get_node]
      rw [find?_modifyValue_self _ t _ (fun n => add_edge_value n w f),
        find?_modifyValue_other _ f t (fun h => hft h.symm) _ (fun n => add_edge_value n w t),
        hnt0, Option.map_map]
      simp only [Option.map_some', Function.comp]
      rw [add_edge_of_no_target nt w f hnot]
  · by_cases hcond : (((g.nodes.find? (fun n => decide (n.value = f))).isNone
        || (g.nodes.find? (fun n => decide (n.value = t))).isNone) = true)
    · have h1 : g.add_edge f t w = (false, g) := by rw [Graph.add_edge, if_pos hcond]
      have h2 : g.add_edge f t w1 = (false, g) := by rw [Graph.add_edge, if_pos hcond]
      rw [h1]
      show (g.add_edge f t w1).2 = g
      rw [h2]
    · rw [Bool.or_eq_true, not_or] at hcond
      obtain ⟨hf1, ht1⟩ := hcond
      obtain ⟨nf0, hnf0⟩ : ∃ n, g.nodes.find? (fun n => decide (n.value = f)) = some n := by
        cases hx : g.nodes.find? (fun n => decide (n.value = f)) with
        | none => rw [hx] at hf1; simp at hf1
        | some n => exact ⟨n, rfl⟩
      obtain ⟨nt0, hnt0⟩ : ∃ n, g.nodes.find? (fun n => decide (n.value = t)) = some n := by
        cases hx : g.nodes.find? (fun n => decide (n.value = t)) with
        | none => rw [hx] at ht1; simp at ht1
        | some n => exact ⟨n, rfl⟩
      have hcond2 : ¬ (((g.nodes.find? (fun n => decide (n.value = f))).isNone
          || (g.nodes.find? (fun n => decide (n.value = t))).isNone) = true) := by
        rw [hnf0, hnt0]; simp
      cases hdir : g.directed with
      | true =>
        have h2 : (g.add_edge f t w).2 = Graph.mk true
            (modifyValue g.nodes f (fun n => n.add_edge w t)) := by
          rw [Graph.add_edge, if_neg hcond2]
          simp [hdir]
        rw [h2]
        obtain ⟨m2, hm2⟩ : ∃ m, (modifyValue g.nodes f (fun n => n.add_edge w t)).find?
            (fun n => decide (n.value = t)) = some m := by
          have hsome : ((modifyValue g.nodes f (fun n => n.add_edge w t)).find?
              (fun n => decide (n.value = t))).isSome = true := by
            rw [find?_modifyValue_isSome _ _ _ _ (fun n => add_edge_value n w t), hnt0]
            rfl
          cases hx : (modifyValue g.nodes f (fun n => n.add_edge w t)).find?
              (fun n => decide (n.value = t)) with
          | none => rw [hx] at hsome; simp at hsome
          | some m => exact ⟨m, rfl⟩
        refine add_edge_second_noop true _ f t w1 (nf0.add_edge w t) m2 ?_ hm2
          (add_edge_hasTarget nf0 w t) (fun hcontra => by simp at hcontra)
        rw [find?_modifyValue_self _ f _ (fun n => add_edge_value n w t), hnf0]
        rfl
      | false =>
        have h2 : (g.add_edge f t w).2 = Graph.mk false
            (modifyValue (modifyValue g.nodes f (fun n => n.add_edge w t)) t
              (fun n => n.add_edge w f)) := by
          rw [Graph.add_edge, if_neg hcond2]
          simp [hdir]
        rw [h2]
        obtain ⟨m1, hm1⟩ : ∃ m, (modifyValue g.nodes f (fun n => n.add_edge w t)).find?
            (fun n => decide (n.value = t)) = some m := by
          have hsome : ((modifyValue g.nodes f (fun n => n.add_edge w t)).find?
              (fun n => decide (n.value = t))).isSome = true := by
            rw [find?_modifyValue_isSome _ _ _ _ (fun n => add_edge_value n w t), hnt0]
            rfl
          cases hx : (modifyValue g.nodes f (fun n => n.add_edge w t)).find?
              (fun n => decide (n.value = t)) with
          | none => rw [hx] at hsome; simp at hsome
          | some m => exact ⟨m, rfl⟩
        have hfind_t : (modifyValue (modifyValue g.nodes f (fun n => n.add_edge w t)) t
            (fun n => n.add_edge w f)).find? (fun n => decide (n.value = t)) =
              some (m1.add_edge w f) := by
          rw [find?_modifyValue_self _ t _ (fun n => add_edge_value n w f), hm1]
          rfl
        by_cases hft : f = t
        · subst hft
          exact add_edge_second_noop false _ f f w1 (m1.add_edge w f) (m1.add_edge w f)
            hfind_t hfind_t (add_edge_hasTarget m1 w f) (fun _ => add_edge_hasTarget m1 w f)
        · have hfind_f : (modifyValue (modifyValue g.nodes f (fun n => n.add_edge w t)) t
              (fun n => n.add_edge w f)).find? (fun n => decide (n.value = f)) =
                some (nf0.add_edge w t) := by
            rw [find?_modifyValue_other _ t f hft _ (fun n => add_edge_value n w f),
              find?_modifyValue_self _ f _ (fun n => add_edge_value n w t), hnf0]
            rfl
          exact add_edge_second_noop false _ f t w1 (nf0.add_edge w t) (m1.add_edge w f)
            hfind_f hfind_t (add_edge_hasTarget nf0 w t)
            (fun _ => add_edge_hasTarget m1 w f)

/-- Witness for C8: undirected graph with nodes 1 and 2; adding 1 - 2
with weight 7 creates the mutual edges, and re-adding with weight 9
changes nothing. -/
theorem add_edge_undirected_mutual_and_dedup_witness :
    ((((c8Graph.add_edge 1 2 7).2.get_node 1).map Node.edges =
        some [{ weight := 7, target := 2 }] ∧
      ((c8Graph.add_edge 1 2 7).2.get_node 2).map Node.edges =
        some [{ weight := 7, target := 1 }]) ∧
      ((c8Graph.add_edge 1 2 7).2.add_edge 1 2 9).2 = (c8Graph.add_edge 1 2 7).2) := by
  have h := add_edge_undirected_mutual_and_dedup c8Graph 1 2 7 9 (Node.new 1) (Node.new 2)
  exact ⟨h.1 rfl (by decide) rfl rfl (by simp [Node.new]) (by simp [Node.new]), h.2⟩
end GraphAlg
